import Mathlib

/-!
Verification development for `dadafilterbank` (src/main.c).

The program connects to a psrdada ring buffer, reads run parameters from the
metadata header, opens one Sigproc filterbank file per tied-array beam, and
then, page by page, gathers each page from [ntabs][nchannels][padded_size]
layout into per-beam [ntimes][nchannels] layout with the channel axis
reversed, appending each reshaped block to the corresponding file.

Byte buffers (the malloc'd scratch `buffer`, and ring-buffer pages) are
modelled as total functions from a flat byte index to a byte value.
C `double` values (only `tsamp` matters here) are modelled as exact
rationals; `tsamp` is only computed and stored, never compared, so the
rational model is faithful for the properties below.
-/

namespace Dadafilterbank

/-- Byte buffers / pages: flat index to byte value. -/
abbrev Buf := Nat → Nat

/-- A single store `b[i] = v`. -/
def bufWrite (b : Buf) (i v : Nat) : Buf := fun j => if j = i then v else b j

/-- An ascending `for` loop of `n` stores: iteration `i` writes `val i` at
index `idx i`; iteration `n - 1` is performed last. -/
def writeLoop (idx val : Nat → Nat) : Nat → Buf → Buf
  | 0, b => b
  | n + 1, b => bufWrite (writeLoop idx val n b) (idx n) (val n)

-- Hardcoded parameter (main.c:33)
def nchannels : Nat := 1536

/-- main.c:316-319, the inner `time` loop for a fixed `(tab, channel)`:
`buffer[time*nchannels+nchannels-channel-1] = page[(tab*nchannels + channel) * padded_size + time]`
for `time` in `[0, T)`.  `C` is `nchannels`, `P` is `padded_size`. -/
def timeLoop (page : Buf) (C P T tab channel : Nat) (b : Buf) : Buf :=
  writeLoop (fun time => time * C + C - channel - 1)
    (fun time => page ((tab * C + channel) * P + time)) T b

/-- main.c:315-320, the `channel` loop for a fixed `tab`, running channels
`0..n-1` in order. -/
def chanLoop (page : Buf) (C P T tab : Nat) : Nat → Buf → Buf
  | 0, b => b
  | n + 1, b => timeLoop page C P T tab n (chanLoop page C P T tab n b)

/-- The whole gather for one beam: all `C` channels. -/
def transcodeBeam (page : Buf) (C P T tab : Nat) (b : Buf) : Buf :=
  chanLoop page C P T tab C b

/-- The `len` bytes handed to `write` (main.c:321). -/
def readBlock (b : Buf) (len : Nat) : List Nat :=
  (List.range len).map b

/-- Zero buffer, used as a canonical initial scratch buffer. -/
def zeroBuf : Buf := fun _ => 0

/-- The reshaped block for one beam as a pure function of the page: the
scratch buffer is fully overwritten, so any initial contents yield this. -/
def canonicalBlock (page : Buf) (C P T tab : Nat) : List Nat :=
  readBlock (transcodeBeam page C P T tab zeroBuf) (T * C)

/-- Metadata rejection reasons (each is `exit(EXIT_FAILURE)` in main.c). -/
inductive MetadataError where
  | illegalScienceCase
  | unsupportedMode
  | illegalScienceMode
deriving DecidableEq

/-- Parameters derived from the metadata (main.c:49-52). -/
structure Resolved where
  ntimes : Nat
  tsamp : ℚ
  ntabs : Nat
deriving DecidableEq

/-- main.c:258-269: science case selects ntimes and tsamp, others are fatal. -/
def resolveCase (science_case : Int) : Except MetadataError (Nat × ℚ) :=
  if science_case = 3 then .ok (12500, 1.024 / 12500)
  else if science_case = 4 then .ok (25000, 1.024 / 25000)
  else .error .illegalScienceCase

/-- main.c:276-290: science mode selects ntabs; modes 1 and 3 (IQUV) are
rejected, as is anything else. -/
def resolveMode (science_mode : Int) : Except MetadataError Nat :=
  if science_mode = 0 then .ok 12
  else if science_mode = 2 then .ok 1
  else if science_mode = 1 ∨ science_mode = 3 then .error .unsupportedMode
  else .error .illegalScienceMode

/-- Parameter resolution as performed by main: case check first, then mode. -/
def resolve (science_case science_mode : Int) : Except MetadataError Resolved :=
  match resolveCase science_case with
  | .error e => .error e
  | .ok (nt, ts) =>
    match resolveMode science_mode with
    | .error e => .error e
    | .ok tabs => .ok ⟨nt, ts, tabs⟩

/-- Observable events of a run, in program order. -/
inductive Event where
  | logged (msg : String)
  | fileOpened (name : String)
  | wrote (tab : Nat) (block : List Nat)
  | fsynced (tab : Nat)
  | fileClosed (tab : Nat)
  | exited (success : Bool)
deriving DecidableEq

/-- `%02i` of a positive value as used in main.c:184 (two-digit zero pad). -/
def pad2 (n : Nat) : String := if n < 10 then "0" ++ toString n else toString n

/-- main.c:180-185: output filename for one beam. -/
def fname (pfx : String) (ntabsV tab : Nat) : String :=
  if ntabsV = 1 then pfx ++ ".fil" else pfx ++ "_" ++ pad2 (tab + 1) ++ ".fil"

/-- The names created by open_files (main.c:176-208), in beam order. -/
def openFilesNames (pfx : String) (ntabsV : Nat) : List String :=
  (List.range ntabsV).map (fname pfx ntabsV)

/-- The fileOpened events of open_files. -/
def openFilesEvents (pfx : String) (ntabsV : Nat) : List Event :=
  (openFilesNames pfx ntabsV).map Event.fileOpened

/-- main.c:314-322 for one page: beams `0..n-1` in order; beam `tab`
transcodes into the shared scratch buffer (threaded through) and then the
first `T*C` bytes of the scratch buffer are written to file `tab`. -/
def pageBeams (page : Buf) (C P T : Nat) (b : Buf) : Nat → List Event × Buf
  | 0 => ([], b)
  | n + 1 =>
    let r := pageBeams page C P T b n
    let b2 := transcodeBeam page C P T n r.2
    (r.1 ++ [Event.wrote n (readBlock b2 (T * C))], b2)

/-- main.c:306-326: the page loop, threading the shared scratch buffer. -/
def processPages (C P T ntabsV : Nat) (pages : List Buf) (b : Buf) :
    List Event × Buf :=
  match pages with
  | [] => ([], b)
  | p :: rest =>
    let r := pageBeams p C P T b ntabsV
    let r2 := processPages C P T ntabsV rest r.2
    (r.1 ++ r2.1, r2.2)

/-- main.c:258-336 after the ring buffer is connected: the run's observable
trace, for a given science case / mode, padded size `P`, filename prefix,
the pages delivered before end-of-data, and the (arbitrary, malloc'd)
initial contents `buf0` of the scratch buffer.  Log messages keep the
source's text with formatted values appended.  Reaching the end of main
exits with success. -/
def mainTrace (science_case science_mode : Int) (P : Nat) (pfx : String)
    (pages : List Buf) (buf0 : Buf) : List Event :=
  match resolveCase science_case with
  | .error _ =>
    [Event.logged ("Error: Illegal science case " ++ toString science_mode),
     Event.exited false]
  | .ok (T, _) =>
    Event.logged "dadafilterbank version" ::
    Event.logged ("Science case = " ++ toString science_case) ::
    Event.logged ("Filename prefix = " ++ pfx) ::
    match resolveMode science_mode with
    | .error .unsupportedMode =>
      [Event.logged "Error: modes IQUV+TAB / IQUV+IAB not supported",
       Event.exited false]
    | .error _ =>
      [Event.logged ("Error: Illegal science mode " ++ toString science_mode),
       Event.exited false]
    | .ok ntabsV =>
      Event.logged (if science_mode = 0 then "Science mode: I + TAB"
                    else "Science mode: I + IAB") ::
      (openFilesEvents pfx ntabsV ++
        ((processPages nchannels P T ntabsV pages buf0).1 ++
          [Event.logged "End of data received",
           Event.logged ("Read " ++ toString pages.length ++ " pages"),
           Event.exited true]))

/-- main.c:224-229: the SIGINT handler's loop body for tabs `0..n-1`:
fsync and close every tab whose file descriptor is nonzero. -/
def sigintCloses (output : Nat → Nat) : Nat → List Event
  | 0 => []
  | n + 1 =>
    sigintCloses output n ++
      (if output n ≠ 0 then [Event.fsynced n, Event.fileClosed n] else [])

/-- main.c:221-231: the SIGINT handler's trace. -/
def sigintTrace (output : Nat → Nat) (ntabsV : Nat) : List Event :=
  Event.logged "SIGINT received, aborting" ::
    (sigintCloses output ntabsV ++ [Event.exited false])

/-- Is this event a close of stream `i`? -/
def isClosedOf (i : Nat) : Event → Bool
  | Event.fileClosed j => j == i
  | _ => false

/-- Is this event an fsync of stream `i`? -/
def isFsyncOf (i : Nat) : Event → Bool
  | Event.fsynced j => j == i
  | _ => false

/-- Is this event a file-open? -/
def isOpenedEv : Event → Bool
  | Event.fileOpened _ => true
  | _ => false

/-- Is this event any file-close? -/
def isClosedEv : Event → Bool
  | Event.fileClosed _ => true
  | _ => false

/-- Number of times stream `i` is closed in a trace. -/
def countClosed (tr : List Event) (i : Nat) : Nat :=
  (tr.filter (isClosedOf i)).length

/-- Number of times stream `i` is fsynced in a trace. -/
def countFsynced (tr : List Event) (i : Nat) : Nat :=
  (tr.filter (isFsyncOf i)).length

/-- The blocks appended to beam `b`'s stream, in trace order. -/
def writesTo (tr : List Event) (b : Nat) : List (List Nat) :=
  tr.filterMap fun e =>
    match e with
    | Event.wrote tab blk => if tab = b then some blk else none
    | _ => none

/-- Outcome of parseOptions (main.c:131-174). -/
inductive ParseResult where
  | exitSuccess
  | exitFailure
  | parsed (key logfile pfx : String)
deriving DecidableEq

/-- The option characters of the getopt option string "b:c:m:k:l:n:"
(main.c:134).  Note that it does not contain the letter h. -/
def optChars : List Char := ['b', 'c', 'm', 'k', 'l', 'n']

/-- getopt classification: a supplied option character is returned as itself
when it occurs in the option string, otherwise getopt yields a question
mark. -/
def getoptKind (c : Char) : Char := if c ∈ optChars then c else '?'

/-- main.c:134-173: the getopt loop over the supplied (flag, argument)
pairs, followed by the required-flags check.  The k/l/n cases record their
argument; the h case would print usage and exit with success; every other
classification falls to the default branch, which exits with failure. -/
def parseLoop : List (Char × String) → Option String → Option String →
    Option String → ParseResult
  | [], some k, some l, some p => ParseResult.parsed k l p
  | [], _, _, _ => ParseResult.exitFailure
  | (c, arg) :: rest, key, lf, pf =>
    let g := getoptKind c
    if g = 'k' then parseLoop rest (some arg) lf pf
    else if g = 'l' then parseLoop rest key (some arg) pf
    else if g = 'n' then parseLoop rest key lf (some arg)
    else if g = 'h' then ParseResult.exitSuccess
    else ParseResult.exitFailure

/-- parseOptions over a command line given as (flag, argument) pairs. -/
def parseOptions (args : List (Char × String)) : ParseResult :=
  parseLoop args none none none

/-- Header values read by init_ringbuffer that matter for resolution. -/
structure HeaderParams where
  science_case : Int
  science_mode : Int
  padded_size : Int
deriving DecidableEq

/-- main.c:37-39 and 104-106: the globals default to science case 3,
science mode 2, padded size 12500; `ascii_header_get` leaves the
destination variable unchanged when the key is absent from the header, so
a missing key keeps the default. -/
def readHeader (hdr : String → Option Int) : HeaderParams :=
  { science_case := (hdr "SCIENCE_CASE").getD 3
    science_mode := (hdr "SCIENCE_MODE").getD 2
    padded_size := (hdr "PADDED_SIZE").getD 12500 }

/-- A full run driven by a metadata header. -/
def runWithHeader (hdr : String → Option Int) (pfx : String)
    (pages : List Buf) (buf0 : Buf) : List Event :=
  mainTrace (readHeader hdr).science_case (readHeader hdr).science_mode
    (readHeader hdr).padded_size.toNat pfx pages buf0

/-- The buffer-index map of the gather, as written in main.c:318:
`time*nchannels+nchannels-channel-1`, as a map on `Fin C × Fin T`. -/
def gatherIdx (C T : Nat) (p : Fin C × Fin T) : Fin (T * C) :=
  ⟨p.2.1 * C + C - p.1.1 - 1, by
    have hc := p.1.2
    have ht := p.2.2
    have h2 : p.2.1 * C + C = (p.2.1 + 1) * C := (Nat.succ_mul _ C).symm
    have h3 : (p.2.1 + 1) * C ≤ T * C := Nat.mul_le_mul_right C ht
    omega⟩

end Dadafilterbank

namespace Dadafilterbank

theorem writeLoop_miss (idx val : Nat → Nat) (n : Nat) (b : Buf) (j : Nat)
    (h : ∀ i, i < n → idx i ≠ j) : writeLoop idx val n b j = b j := by
  induction n with
  | zero => rfl
  | succ n ih =>
    simp only [writeLoop, bufWrite]
    rw [if_neg (fun hj => h n (Nat.lt_succ_self n) hj.symm)]
    exact ih (fun i hi => h i (Nat.lt_succ_of_lt hi))

theorem writeLoop_hit (idx val : Nat → Nat) (n : Nat) (b : Buf) (t : Nat)
    (ht : t < n) (hinj : ∀ i, i < n → idx i = idx t → i = t) :
    writeLoop idx val n b (idx t) = val t := by
  induction n with
  | zero => exact absurd ht (Nat.not_lt_zero t)
  | succ n ih =>
    simp only [writeLoop, bufWrite]
    by_cases hn : t = n
    · subst hn; rw [if_pos rfl]
    · have ht' : t < n := Nat.lt_of_le_of_ne (Nat.le_of_lt_succ ht) hn
      rw [if_neg, ih ht' (fun i hi hei => hinj i (Nat.lt_succ_of_lt hi) hei)]
      intro hcontra
      exact hn ((hinj n (Nat.lt_succ_self n) hcontra.symm).symm)

theorem idx_eq_parts (C t1 k1 t2 k2 : Nat) (h1 : k1 < C) (h2 : k2 < C)
    (heq : t1 * C + k1 = t2 * C + k2) : t1 = t2 ∧ k1 = k2 := by
  have e1 : (t1 * C + k1) % C = k1 := by
    rw [Nat.mul_comm, Nat.mul_add_mod]; exact Nat.mod_eq_of_lt h1
  have e2 : (t2 * C + k2) % C = k2 := by
    rw [Nat.mul_comm, Nat.mul_add_mod]; exact Nat.mod_eq_of_lt h2
  have hk : k1 = k2 := by rw [← e1, ← e2, heq]
  have hC : 0 < C := Nat.lt_of_le_of_lt (Nat.zero_le k1) h1
  refine ⟨Nat.eq_of_mul_eq_mul_right hC ?_, hk⟩
  omega

theorem timeLoop_hit (page : Buf) (C P T tab channel : Nat) (b : Buf)
    (t : Nat) (hch : channel < C) (ht : t < T) :
    timeLoop page C P T tab channel b (t * C + C - channel - 1) =
      page ((tab * C + channel) * P + t) := by
  unfold timeLoop
  refine writeLoop_hit _ _ T b t ht ?_
  intro i hi hei
  have hC : 0 < C := Nat.lt_of_le_of_lt (Nat.zero_le channel) hch
  have hmul : i * C = t * C := by omega
  exact Nat.eq_of_mul_eq_mul_right hC hmul

theorem timeLoop_miss (page : Buf) (C P T tab channel : Nat) (b : Buf)
    (j : Nat) (h : ∀ time, time < T → time * C + C - channel - 1 ≠ j) :
    timeLoop page C P T tab channel b j = b j :=
  writeLoop_miss _ _ T b j h

theorem chanLoop_hit (page : Buf) (C P T tab : Nat) (n : Nat) (b : Buf)
    (c t : Nat) (hc : c < n) (hn : n ≤ C) (ht : t < T) :
    chanLoop page C P T tab n b (t * C + C - c - 1) =
      page ((tab * C + c) * P + t) := by
  induction n with
  | zero => omega
  | succ n ih =>
    show timeLoop page C P T tab n (chanLoop page C P T tab n b)
        (t * C + C - c - 1) = _
    by_cases hcn : c = n
    · subst hcn
      exact timeLoop_hit page C P T tab c _ t (Nat.lt_of_lt_of_le hc hn) ht
    · have hcC : c < C := by omega
      have hnC : n < C := by omega
      rw [timeLoop_miss]
      · exact ih (by omega) (by omega)
      · intro time htime heq
        have ha : time * C + C - n - 1 = time * C + (C - n - 1) := by omega
        have hb : t * C + C - c - 1 = t * C + (C - c - 1) := by omega
        rw [ha, hb] at heq
        have hparts := idx_eq_parts C time (C - n - 1) t (C - c - 1)
          (by omega) (by omega) heq
        exact hcn (by omega)

theorem transcodeBeam_hit (page : Buf) (C P T tab : Nat) (b : Buf)
    (c t : Nat) (hc : c < C) (ht : t < T) :
    transcodeBeam page C P T tab b (t * C + C - c - 1) =
      page ((tab * C + c) * P + t) :=
  chanLoop_hit page C P T tab C b c t hc (Nat.le_refl C) ht

/-- The gather fully overwrites the scratch buffer: within the written
block, the result does not depend on the buffer's previous contents. -/
theorem transcodeBeam_overwrite (page : Buf) (C P T tab : Nat)
    (b1 b2 : Buf) (j : Nat) (hj : j < T * C) :
    transcodeBeam page C P T tab b1 j = transcodeBeam page C P T tab b2 j := by
  have hC : 0 < C := by
    rcases Nat.eq_zero_or_pos C with h | h
    · subst h; simp at hj
    · exact h
  have hk : j % C < C := Nat.mod_lt _ hC
  have ht : j / C < T := (Nat.div_lt_iff_lt_mul hC).mpr hj
  have hdecomp : C * (j / C) + j % C = j := Nat.div_add_mod j C
  have hcomm : C * (j / C) = (j / C) * C := Nat.mul_comm C (j / C)
  have hidx : j = j / C * C + C - (C - 1 - j % C) - 1 := by omega
  rw [hidx,
    transcodeBeam_hit page C P T tab b1 (C - 1 - j % C) (j / C) (by omega) ht,
    transcodeBeam_hit page C P T tab b2 (C - 1 - j % C) (j / C) (by omega) ht]

theorem readBlock_transcodeBeam (page : Buf) (C P T tab : Nat) (b : Buf) :
    readBlock (transcodeBeam page C P T tab b) (T * C) =
      canonicalBlock page C P T tab := by
  unfold canonicalBlock readBlock
  refine List.map_congr_left ?_
  intro a ha
  exact transcodeBeam_overwrite page C P T tab b zeroBuf a (List.mem_range.mp ha)

theorem writesTo_append (l1 l2 : List Event) (i : Nat) :
    writesTo (l1 ++ l2) i = writesTo l1 i ++ writesTo l2 i := by
  unfold writesTo
  exact List.filterMap_append l1 l2 _

theorem writesTo_wrote_singleton (tab i : Nat) (blk : List Nat) :
    writesTo [Event.wrote tab blk] i = if tab = i then [blk] else [] := by
  by_cases h : tab = i
  · simp [writesTo, h]
  · simp [writesTo, h]

theorem pageBeams_writesTo (page : Buf) (C P T : Nat) (b : Buf) (n tab : Nat) :
    writesTo (pageBeams page C P T b n).1 tab =
      if tab < n then [canonicalBlock page C P T tab] else [] := by
  induction n generalizing b with
  | zero => simp [pageBeams, writesTo]
  | succ n ih =>
    simp only [pageBeams]
    rw [writesTo_append, ih, writesTo_wrote_singleton, readBlock_transcodeBeam]
    by_cases h1 : tab < n
    · rw [if_pos h1, if_neg (by omega), if_pos (by omega)]
      simp
    · by_cases h2 : tab = n
      · subst h2
        rw [if_neg h1, if_pos rfl, if_pos (Nat.lt_succ_self tab)]
        simp
      · rw [if_neg h1, if_neg (by omega : ¬n = tab), if_neg (by omega)]
        simp

theorem processPages_writesTo (C P T ntabsV : Nat) (pages : List Buf)
    (b : Buf) (tab : Nat) (h : tab < ntabsV) :
    writesTo (processPages C P T ntabsV pages b).1 tab =
      pages.map (fun p => canonicalBlock p C P T tab) := by
  induction pages generalizing b with
  | nil => simp [processPages, writesTo]
  | cons p rest ih =>
    simp only [processPages]
    rw [writesTo_append, pageBeams_writesTo, if_pos h, ih]
    simp

theorem canonicalBlock_length (page : Buf) (C P T tab : Nat) :
    (canonicalBlock page C P T tab).length = T * C := by
  simp [canonicalBlock, readBlock]

theorem pageBeams_events (page : Buf) (C P T : Nat) (b : Buf) (n : Nat) :
    ∀ e ∈ (pageBeams page C P T b n).1, ∃ tab blk, e = Event.wrote tab blk := by
  induction n generalizing b with
  | zero => intro e he; simp [pageBeams] at he
  | succ n ih =>
    intro e he
    simp only [pageBeams, List.mem_append, List.mem_singleton] at he
    rcases he with he | he
    · exact ih b e he
    · exact ⟨n, _, he⟩

theorem processPages_events (C P T ntabsV : Nat) (pages : List Buf) (b : Buf) :
    ∀ e ∈ (processPages C P T ntabsV pages b).1,
      ∃ tab blk, e = Event.wrote tab blk := by
  induction pages generalizing b with
  | nil => intro e he; simp [processPages] at he
  | cons p rest ih =>
    intro e he
    simp only [processPages, List.mem_append] at he
    rcases he with he | he
    · exact pageBeams_events p C P T b ntabsV e he
    · exact ih _ e he

theorem countClosed_append (l1 l2 : List Event) (i : Nat) :
    countClosed (l1 ++ l2) i = countClosed l1 i + countClosed l2 i := by
  unfold countClosed
  rw [List.filter_append, List.length_append]

theorem countFsynced_append (l1 l2 : List Event) (i : Nat) :
    countFsynced (l1 ++ l2) i = countFsynced l1 i + countFsynced l2 i := by
  unfold countFsynced
  rw [List.filter_append, List.length_append]

theorem countClosed_eq_zero (tr : List Event) (i : Nat)
    (h : ∀ e ∈ tr, isClosedOf i e = false) : countClosed tr i = 0 := by
  unfold countClosed
  rw [List.filter_eq_nil_iff.mpr (fun e he => by simp [h e he])]
  rfl

/-- No branch of the main trace ever closes a stream: the normal path of
main (main.c:306-336) never calls close_files. -/
theorem mainTrace_countClosed (science_case science_mode : Int) (P : Nat)
    (pfx : String) (pages : List Buf) (buf0 : Buf) (i : Nat) :
    countClosed (mainTrace science_case science_mode P pfx pages buf0) i = 0 := by
  apply countClosed_eq_zero
  intro e he
  unfold mainTrace at he
  rcases hcase : resolveCase science_case with ec | TV
  · rw [hcase] at he
    simp only [List.mem_cons, List.not_mem_nil, or_false] at he
    rcases he with rfl | rfl
    · rfl
    · rfl
  · rw [hcase] at he
    rcases hmode : resolveMode science_mode with em | ntabsV
    · rw [hmode] at he
      rcases em with _ | _ | _ <;>
        (simp only [List.mem_cons, List.not_mem_nil, or_false] at he
         rcases he with rfl | rfl | rfl | rfl | rfl <;> rfl)
    · rw [hmode] at he
      simp only [List.mem_cons, List.mem_append] at he
      rcases he with rfl | rfl | rfl | rfl | he
      · rfl
      · rfl
      · rfl
      · rfl
      rcases he with he | he | he
      · simp only [openFilesEvents, List.mem_map] at he
        obtain ⟨nm, _, rfl⟩ := he
        rfl
      · obtain ⟨tab, blk, rfl⟩ :=
          processPages_events nchannels P TV.1 ntabsV pages buf0 e he
        rfl
      · simp only [List.mem_cons, List.not_mem_nil, or_false] at he
        rcases he with rfl | rfl | rfl <;> rfl

theorem sigintCloses_countClosed (out : Nat → Nat) (n i : Nat) :
    countClosed (sigintCloses out n) i =
      if i < n ∧ out i ≠ 0 then 1 else 0 := by
  induction n with
  | zero => simp [sigintCloses, countClosed]
  | succ n ih =>
    simp only [sigintCloses]
    rw [countClosed_append, ih]
    have hc : countClosed
        (if out n ≠ 0 then [Event.fsynced n, Event.fileClosed n] else []) i =
        if out n ≠ 0 ∧ n = i then 1 else 0 := by
      by_cases h : out n ≠ 0
      · rw [if_pos h]
        by_cases hni : n = i
        · subst hni; simp [countClosed, isClosedOf, h]
        · simp [countClosed, isClosedOf, hni, h]
      · rw [if_neg h]
        simp [countClosed, h]
    rw [hc]
    by_cases hni : i = n
    · subst hni
      by_cases ho : out i = 0
      · rw [if_neg (fun hx : i < i ∧ out i ≠ 0 => hx.2 ho),
          if_neg (fun hx : out i ≠ 0 ∧ i = i => hx.1 ho),
          if_neg (fun hx : i < i + 1 ∧ out i ≠ 0 => hx.2 ho)]
      · rw [if_neg (fun hx : i < i ∧ out i ≠ 0 => Nat.lt_irrefl i hx.1),
          if_pos (⟨ho, rfl⟩ : out i ≠ 0 ∧ i = i),
          if_pos (⟨Nat.lt_succ_self i, ho⟩ : i < i + 1 ∧ out i ≠ 0)]
    · rw [if_neg (fun hx : out n ≠ 0 ∧ n = i => hni hx.2.symm)]
      have hiff : (i < n + 1 ∧ out i ≠ 0) ↔ (i < n ∧ out i ≠ 0) := by
        constructor
        · exact fun hx => ⟨by omega, hx.2⟩
        · exact fun hx => ⟨Nat.lt_succ_of_lt hx.1, hx.2⟩
      rw [if_congr hiff rfl rfl]
      omega

theorem sigintCloses_countFsynced (out : Nat → Nat) (n i : Nat) :
    countFsynced (sigintCloses out n) i =
      if i < n ∧ out i ≠ 0 then 1 else 0 := by
  induction n with
  | zero => simp [sigintCloses, countFsynced]
  | succ n ih =>
    simp only [sigintCloses]
    rw [countFsynced_append, ih]
    have hc : countFsynced
        (if out n ≠ 0 then [Event.fsynced n, Event.fileClosed n] else []) i =
        if out n ≠ 0 ∧ n = i then 1 else 0 := by
      by_cases h : out n ≠ 0
      · rw [if_pos h]
        by_cases hni : n = i
        · subst hni; simp [countFsynced, isFsyncOf, h]
        · simp [countFsynced, isFsyncOf, hni, h]
      · rw [if_neg h]
        simp [countFsynced, h]
    rw [hc]
    by_cases hni : i = n
    · subst hni
      by_cases ho : out i = 0
      · rw [if_neg (fun hx : i < i ∧ out i ≠ 0 => hx.2 ho),
          if_neg (fun hx : out i ≠ 0 ∧ i = i => hx.1 ho),
          if_neg (fun hx : i < i + 1 ∧ out i ≠ 0 => hx.2 ho)]
      · rw [if_neg (fun hx : i < i ∧ out i ≠ 0 => Nat.lt_irrefl i hx.1),
          if_pos (⟨ho, rfl⟩ : out i ≠ 0 ∧ i = i),
          if_pos (⟨Nat.lt_succ_self i, ho⟩ : i < i + 1 ∧ out i ≠ 0)]
    · rw [if_neg (fun hx : out n ≠ 0 ∧ n = i => hni hx.2.symm)]
      have hiff : (i < n + 1 ∧ out i ≠ 0) ↔ (i < n ∧ out i ≠ 0) := by
        constructor
        · exact fun hx => ⟨by omega, hx.2⟩
        · exact fun hx => ⟨Nat.lt_succ_of_lt hx.1, hx.2⟩
      rw [if_congr hiff rfl rfl]
      omega

theorem sigintTrace_countClosed (out : Nat → Nat) (n i : Nat) :
    countClosed (sigintTrace out n) i =
      if i < n ∧ out i ≠ 0 then 1 else 0 := by
  unfold sigintTrace
  rw [show Event.logged "SIGINT received, aborting" ::
      (sigintCloses out n ++ [Event.exited false]) =
      [Event.logged "SIGINT received, aborting"] ++
      (sigintCloses out n ++ [Event.exited false]) from rfl,
    countClosed_append, countClosed_append, sigintCloses_countClosed]
  simp [countClosed, List.filter, isClosedOf]

theorem sigintTrace_countFsynced (out : Nat → Nat) (n i : Nat) :
    countFsynced (sigintTrace out n) i =
      if i < n ∧ out i ≠ 0 then 1 else 0 := by
  unfold sigintTrace
  rw [show Event.logged "SIGINT received, aborting" ::
      (sigintCloses out n ++ [Event.exited false]) =
      [Event.logged "SIGINT received, aborting"] ++
      (sigintCloses out n ++ [Event.exited false]) from rfl,
    countFsynced_append, countFsynced_append, sigintCloses_countFsynced]
  simp [countFsynced, List.filter, isFsyncOf]

theorem readBlock_getD (b : Buf) (len i : Nat) (h : i < len) :
    (readBlock b len).getD i 0 = b i := by
  unfold readBlock
  rw [List.getD_eq_getElem?_getD, List.getElem?_map, List.getElem?_range h]
  rfl

theorem writeLoop_congr (idx val1 val2 : Nat → Nat) (n : Nat) (b : Buf)
    (h : ∀ i, i < n → val1 i = val2 i) :
    writeLoop idx val1 n b = writeLoop idx val2 n b := by
  induction n with
  | zero => rfl
  | succ n ih =>
    simp only [writeLoop]
    rw [ih (fun i hi => h i (Nat.lt_succ_of_lt hi)), h n (Nat.lt_succ_self n)]

theorem timeLoop_congr (page1 page2 : Buf) (C P T tab channel : Nat) (b : Buf)
    (h : ∀ t, t < T →
      page1 ((tab * C + channel) * P + t) = page2 ((tab * C + channel) * P + t)) :
    timeLoop page1 C P T tab channel b = timeLoop page2 C P T tab channel b := by
  unfold timeLoop
  exact writeLoop_congr _ _ _ T b h

theorem chanLoop_congr (page1 page2 : Buf) (C P T tab : Nat) (n : Nat) (b : Buf)
    (h : ∀ c t, c < n → t < T →
      page1 ((tab * C + c) * P + t) = page2 ((tab * C + c) * P + t)) :
    chanLoop page1 C P T tab n b = chanLoop page2 C P T tab n b := by
  induction n with
  | zero => rfl
  | succ n ih =>
    simp only [chanLoop]
    rw [ih (fun c t hc ht => h c t (Nat.lt_succ_of_lt hc) ht),
      timeLoop_congr page1 page2 C P T tab n _
        (fun t ht => h n t (Nat.lt_succ_self n) ht)]

theorem transcodeBeam_congr (page1 page2 : Buf) (C P T tab : Nat) (b : Buf)
    (h : ∀ c t, c < C → t < T →
      page1 ((tab * C + c) * P + t) = page2 ((tab * C + c) * P + t)) :
    transcodeBeam page1 C P T tab b = transcodeBeam page2 C P T tab b :=
  chanLoop_congr page1 page2 C P T tab C b h

theorem pageBeams_congr (page1 page2 : Buf) (C P T : Nat) (buf : Buf) (n : Nat)
    (h : ∀ b c t, b < n → c < C → t < T →
      page1 ((b * C + c) * P + t) = page2 ((b * C + c) * P + t)) :
    pageBeams page1 C P T buf n = pageBeams page2 C P T buf n := by
  induction n with
  | zero => rfl
  | succ n ih =>
    simp only [pageBeams]
    rw [ih (fun b c t hb hc ht => h b c t (Nat.lt_succ_of_lt hb) hc ht),
      transcodeBeam_congr page1 page2 C P T n _
        (fun c t hc ht => h n c t (Nat.lt_succ_self n) hc ht)]

theorem writesTo_cons_logged (m : String) (l : List Event) (i : Nat) :
    writesTo (Event.logged m :: l) i = writesTo l i := rfl

theorem writesTo_cons_fileOpened (m : String) (l : List Event) (i : Nat) :
    writesTo (Event.fileOpened m :: l) i = writesTo l i := rfl

theorem writesTo_map_fileOpened (l : List String) (i : Nat) :
    writesTo (l.map Event.fileOpened) i = [] := by
  induction l with
  | nil => rfl
  | cons a l ih => rw [List.map_cons, writesTo_cons_fileOpened, ih]

theorem writesTo_openFilesEvents (pfx : String) (ntabsV i : Nat) :
    writesTo (openFilesEvents pfx ntabsV) i = [] :=
  writesTo_map_fileOpened (openFilesNames pfx ntabsV) i

/-- C1: for every page of shape [beamCount][channelCount][paddedTimeSize]
and every beam b < beamCount, channel c < channelCount, time t <
samplesPerPage, the block written for beam b satisfies
`block[t*C + (C-1-c)] = page[(b*C+c)*P + t]`, regardless of the initial
scratch-buffer contents. -/
theorem transcode_cell_correct (page : Buf) (C P T ntabsV : Nat) (buf : Buf)
    (b c t : Nat) (hb : b < ntabsV) (hc : c < C) (ht : t < T) :
    ∀ blk ∈ writesTo (pageBeams page C P T buf ntabsV).1 b,
      blk.getD (t * C + (C - 1 - c)) 0 = page ((b * C + c) * P + t) := by
  intro blk hblk
  rw [pageBeams_writesTo, if_pos hb, List.mem_singleton] at hblk
  subst hblk
  have hC : 0 < C := Nat.lt_of_le_of_lt (Nat.zero_le c) hc
  have h2 : t * C + C = (t + 1) * C := (Nat.succ_mul t C).symm
  have h3 : (t + 1) * C ≤ T * C := Nat.mul_le_mul_right C ht
  have hidx : t * C + (C - 1 - c) < T * C := by omega
  unfold canonicalBlock
  rw [readBlock_getD _ _ _ hidx]
  have hrw : t * C + (C - 1 - c) = t * C + C - c - 1 := by omega
  rw [hrw]
  exact transcodeBeam_hit page C P T b zeroBuf c t hc ht

theorem transcode_cell_correct_witness :
    (canonicalBlock (fun j => j + 2) 2 3 2 0).getD (1 * 2 + (2 - 1 - 0)) 0 =
      (fun j => j + 2) ((0 * 2 + 0) * 3 + 1) :=
  transcode_cell_correct (fun j => j + 2) 2 3 2 1 (fun _ => 9) 0 0 1
    (by decide) (by decide) (by decide)
    (canonicalBlock (fun j => j + 2) 2 3 2 0)
    (by rw [pageBeams_writesTo, if_pos (by decide : (0:Nat) < 1)]
        exact List.mem_singleton.mpr rfl)

/-- C2: science case 3 yields 12500 samples per page at 1.024/12500 s,
case 4 yields 25000 at 1.024/25000 s; mode 0 yields 12 beams, mode 2 one
beam; every pair outside {3,4} x {0,2} makes resolution fail (the program
exits with failure). -/
theorem resolve_params_correct :
    resolve 3 0 = .ok ⟨12500, 1.024 / 12500, 12⟩ ∧
    resolve 3 2 = .ok ⟨12500, 1.024 / 12500, 1⟩ ∧
    resolve 4 0 = .ok ⟨25000, 1.024 / 25000, 12⟩ ∧
    resolve 4 2 = .ok ⟨25000, 1.024 / 25000, 1⟩ ∧
    ∀ sc sm : Int, ¬((sc = 3 ∨ sc = 4) ∧ (sm = 0 ∨ sm = 2)) →
      ∃ e, resolve sc sm = .error e := by
  refine ⟨rfl, rfl, rfl, rfl, ?_⟩
  intro sc sm h
  have hmode : (sm ≠ 0 ∧ sm ≠ 2) ∨ (sc ≠ 3 ∧ sc ≠ 4) := by tauto
  rcases hmode with ⟨h0, h2⟩ | ⟨h3, h4⟩
  · have hm : ∃ e, resolveMode sm = .error e := by
      unfold resolveMode
      rw [if_neg h0, if_neg h2]
      by_cases h13 : sm = 1 ∨ sm = 3
      · rw [if_pos h13]; exact ⟨_, rfl⟩
      · rw [if_neg h13]; exact ⟨_, rfl⟩
    obtain ⟨e, he⟩ := hm
    unfold resolve
    rcases hcase : resolveCase sc with ec | TV
    · exact ⟨ec, rfl⟩
    · obtain ⟨nt, ts⟩ := TV
      rw [he]
      exact ⟨e, rfl⟩
  · have hcase : resolveCase sc = .error .illegalScienceCase := by
      unfold resolveCase
      rw [if_neg h3, if_neg h4]
    unfold resolve
    rw [hcase]
    exact ⟨_, rfl⟩

theorem resolve_params_correct_witness : ∃ e, resolve 5 1 = .error e :=
  resolve_params_correct.2.2.2.2 5 1 (by decide)

/-- C5: the transcoder never reads padding: two pages that agree on every
cell (b, c, t) with t < samplesPerPage (and may differ arbitrarily
elsewhere, in particular for samplesPerPage <= t < paddedTimeSize) produce
identical per-beam output blocks (identical write events). -/
theorem padding_noninterference (page1 page2 : Buf) (C P T ntabsV : Nat)
    (buf : Buf)
    (h : ∀ b c t, b < ntabsV → c < C → t < T →
      page1 ((b * C + c) * P + t) = page2 ((b * C + c) * P + t)) :
    (pageBeams page1 C P T buf ntabsV).1 = (pageBeams page2 C P T buf ntabsV).1 := by
  rw [pageBeams_congr page1 page2 C P T buf ntabsV h]

theorem padding_noninterference_witness :
    (pageBeams (fun _ => 0) 1 2 1 zeroBuf 1).1 =
      (pageBeams (fun j => if j = 1 then 7 else 0) 1 2 1 zeroBuf 1).1 :=
  padding_noninterference (fun _ => 0) (fun j => if j = 1 then 7 else 0)
    1 2 1 1 zeroBuf
    (by
      intro b c t hb hc ht
      have hb0 : b = 0 := by omega
      have hc0 : c = 0 := by omega
      have ht0 : t = 0 := by omega
      subst hb0; subst hc0; subst ht0
      rfl)

/-- C10: for fixed samplesPerPage T and channelCount C, the index map
(c, t) -> t*C + C - c - 1 is a bijection from channel/time pairs onto
[0, T*C); consequently the shared scratch buffer is fully overwritten for
every beam, so the written block never contains residual bytes from a
previously transcoded beam or page (the gather result within the block is
independent of the initial buffer contents). -/
theorem gather_bijection_and_overwrite :
    (∀ C T : Nat, Function.Bijective (gatherIdx C T)) ∧
    (∀ (page : Buf) (C P T tab : Nat) (b1 b2 : Buf) (j : Nat), j < T * C →
      transcodeBeam page C P T tab b1 j = transcodeBeam page C P T tab b2 j) := by
  constructor
  · intro C T
    constructor
    · rintro ⟨⟨c1, hc1⟩, ⟨t1, ht1⟩⟩ ⟨⟨c2, hc2⟩, ⟨t2, ht2⟩⟩ hpq
      have hval : t1 * C + C - c1 - 1 = t2 * C + C - c2 - 1 :=
        congrArg Fin.val hpq
      have ha : t1 * C + C - c1 - 1 = t1 * C + (C - c1 - 1) := by omega
      have hb : t2 * C + C - c2 - 1 = t2 * C + (C - c2 - 1) := by omega
      rw [ha, hb] at hval
      have hparts := idx_eq_parts C t1 (C - c1 - 1) t2 (C - c2 - 1)
        (by omega) (by omega) hval
      have hce : c1 = c2 := by omega
      have hte : t1 = t2 := hparts.1
      subst hce; subst hte
      rfl
    · rintro ⟨j, hj⟩
      have hC : 0 < C := by
        rcases Nat.eq_zero_or_pos C with h | h
        · subst h; simp at hj
        · exact h
      have hk : j % C < C := Nat.mod_lt _ hC
      have ht : j / C < T := (Nat.div_lt_iff_lt_mul hC).mpr hj
      have hdecomp : C * (j / C) + j % C = j := Nat.div_add_mod j C
      have hcomm : C * (j / C) = (j / C) * C := Nat.mul_comm C (j / C)
      refine ⟨(⟨C - 1 - j % C, by omega⟩, ⟨j / C, ht⟩), ?_⟩
      unfold gatherIdx
      apply Fin.ext
      show j / C * C + C - (C - 1 - j % C) - 1 = j
      omega
  · exact fun page C P T tab b1 b2 j hj =>
      transcodeBeam_overwrite page C P T tab b1 b2 j hj

theorem gather_bijection_and_overwrite_witness :
    transcodeBeam (fun j => j + 3) 1 1 1 0 (fun _ => 11) 0 =
      transcodeBeam (fun j => j + 3) 1 1 1 0 (fun _ => 22) 0 :=
  gather_bijection_and_overwrite.2 (fun j => j + 3) 1 1 1 0
    (fun _ => 11) (fun _ => 22) 0 (by decide)

theorem mainTrace_writesTo (science_case science_mode : Int) (P : Nat)
    (pfx : String) (pages : List Buf) (buf0 : Buf) (nt : Nat) (ts : ℚ)
    (ntabsV : Nat) (b : Nat) (hcase : resolveCase science_case = .ok (nt, ts))
    (hmode : resolveMode science_mode = .ok ntabsV) :
    writesTo (mainTrace science_case science_mode P pfx pages buf0) b =
      writesTo (processPages nchannels P nt ntabsV pages buf0).1 b := by
  unfold mainTrace
  rw [hcase, hmode]
  rw [writesTo_cons_logged, writesTo_cons_logged, writesTo_cons_logged,
    writesTo_cons_logged, writesTo_append, writesTo_openFilesEvents,
    writesTo_append]
  simp [writesTo]

/-- C4: a run that processes its pages to end-of-stream without interrupt
appends to each beam's stream exactly one block per page, of length
samplesPerPage * channelCount bytes, in page-arrival order (the write list
equals the page list mapped through the pure per-beam transcode). -/
theorem pages_written_in_order (sc sm : Int) (P : Nat) (pfx : String)
    (pages : List Buf) (buf0 : Buf) (r : Resolved) (b : Nat)
    (hr : resolve sc sm = .ok r) (hb : b < r.ntabs) :
    writesTo (mainTrace sc sm P pfx pages buf0) b =
      pages.map (fun p => canonicalBlock p nchannels P r.ntimes b) ∧
    (writesTo (mainTrace sc sm P pfx pages buf0) b).length = pages.length ∧
    ∀ blk ∈ writesTo (mainTrace sc sm P pfx pages buf0) b,
      blk.length = r.ntimes * nchannels := by
  unfold resolve at hr
  rcases hcase : resolveCase sc with ec | TV
  · rw [hcase] at hr
    simp at hr
  · obtain ⟨nt, ts⟩ := TV
    rw [hcase] at hr
    rcases hmode : resolveMode sm with em | ntabsV
    · rw [hmode] at hr
      simp at hr
    · rw [hmode] at hr
      have hinj : (⟨nt, ts, ntabsV⟩ : Resolved) = r := by
        simpa using hr
      subst hinj
      rw [mainTrace_writesTo sc sm P pfx pages buf0 nt ts ntabsV b hcase hmode]
      refine ⟨processPages_writesTo nchannels P nt ntabsV pages buf0 b hb,
        ?_, ?_⟩
      · rw [processPages_writesTo nchannels P nt ntabsV pages buf0 b hb,
          List.length_map]
      · intro blk hblk
        rw [processPages_writesTo nchannels P nt ntabsV pages buf0 b hb] at hblk
        obtain ⟨p, hp, rfl⟩ := List.mem_map.mp hblk
        exact canonicalBlock_length p nchannels P nt b

theorem pages_written_in_order_witness :
    writesTo (mainTrace 3 2 1 "w" [zeroBuf] zeroBuf) 0 =
      [canonicalBlock zeroBuf nchannels 1 12500 0] :=
  (pages_written_in_order 3 2 1 "w" [zeroBuf] zeroBuf
    ⟨12500, 1.024 / 12500, 1⟩ 0 rfl (by decide)).1

/-- C3 counterexample: a run with science case 3, mode 2 and zero pages
reaches end-of-stream normally; its trace opens "obs.fil" but contains no
close event at all, so the opened stream is not closed on the normal
completion path (close_files is never invoked by main). -/
theorem normal_close_counterexample :
    (mainTrace 3 2 12500 "obs" [] zeroBuf).filter isOpenedEv =
      [Event.fileOpened "obs.fil"] ∧
    (mainTrace 3 2 12500 "obs" [] zeroBuf).filter isClosedEv = [] := by
  constructor <;> rfl

/-- C3 (amended): no stream is ever closed twice; the normal completion
path closes no stream at all (main never calls close_files), while the
interrupt path fsyncs and closes every opened stream (nonzero descriptor)
exactly once. -/
theorem close_discipline_amended :
    (∀ (sc sm : Int) (P : Nat) (pfx : String) (pages : List Buf)
        (buf0 : Buf) (i : Nat),
        countClosed (mainTrace sc sm P pfx pages buf0) i = 0) ∧
    (∀ (out : Nat → Nat) (n i : Nat),
        countClosed (sigintTrace out n) i =
          (if i < n ∧ out i ≠ 0 then 1 else 0) ∧
        countFsynced (sigintTrace out n) i =
          (if i < n ∧ out i ≠ 0 then 1 else 0)) :=
  ⟨mainTrace_countClosed,
   fun out n i =>
     ⟨sigintTrace_countClosed out n i, sigintTrace_countFsynced out n i⟩⟩

/-- C6: with one beam, exactly one output file named `<prefix>.fil`; with
twelve beams, exactly the twelve files `<prefix>_01.fil` through
`<prefix>_12.fil` (beam index + 1, zero-padded to two digits). -/
theorem output_file_naming (pfx : String) :
    openFilesNames pfx 1 = [pfx ++ ".fil"] ∧
    openFilesNames pfx 12 =
      [pfx ++ "_01.fil", pfx ++ "_02.fil", pfx ++ "_03.fil",
       pfx ++ "_04.fil", pfx ++ "_05.fil", pfx ++ "_06.fil",
       pfx ++ "_07.fil", pfx ++ "_08.fil", pfx ++ "_09.fil",
       pfx ++ "_10.fil", pfx ++ "_11.fil", pfx ++ "_12.fil"] := by
  constructor
  · rfl
  · show [pfx ++ "_" ++ pad2 1 ++ ".fil", pfx ++ "_" ++ pad2 2 ++ ".fil",
      pfx ++ "_" ++ pad2 3 ++ ".fil", pfx ++ "_" ++ pad2 4 ++ ".fil",
      pfx ++ "_" ++ pad2 5 ++ ".fil", pfx ++ "_" ++ pad2 6 ++ ".fil",
      pfx ++ "_" ++ pad2 7 ++ ".fil", pfx ++ "_" ++ pad2 8 ++ ".fil",
      pfx ++ "_" ++ pad2 9 ++ ".fil", pfx ++ "_" ++ pad2 10 ++ ".fil",
      pfx ++ "_" ++ pad2 11 ++ ".fil", pfx ++ "_" ++ pad2 12 ++ ".fil"] = _
    simp only [String.append_assoc]
    rfl

/-- C7 (code evaluation): invoked with -h, getopt classifies h as unknown
because h does not occur in the option string "b:c:m:k:l:n:", so
parseOptions takes the default branch and exits with failure; the case h
branch that would print usage and exit with success is unreachable. -/
theorem dash_h_exits_failure :
    parseOptions [('h', "")] = ParseResult.exitFailure ∧
    getoptKind 'h' = '?' := by
  constructor <;> rfl

/-- C8: with a valid science case and science mode 1 (a polarization
mode), the run logs the unsupported-mode diagnostic and exits with
failure, and its trace contains no file-open event (files are opened only
after the mode check). -/
theorem mode1_fails_before_open (sc : Int) (P : Nat) (pfx : String)
    (pages : List Buf) (buf0 : Buf) (h : sc = 3 ∨ sc = 4) :
    mainTrace sc 1 P pfx pages buf0 =
      [Event.logged "dadafilterbank version",
       Event.logged ("Science case = " ++ toString sc),
       Event.logged ("Filename prefix = " ++ pfx),
       Event.logged "Error: modes IQUV+TAB / IQUV+IAB not supported",
       Event.exited false] ∧
    (mainTrace sc 1 P pfx pages buf0).filter isOpenedEv = [] := by
  have htr : mainTrace sc 1 P pfx pages buf0 =
      [Event.logged "dadafilterbank version",
       Event.logged ("Science case = " ++ toString sc),
       Event.logged ("Filename prefix = " ++ pfx),
       Event.logged "Error: modes IQUV+TAB / IQUV+IAB not supported",
       Event.exited false] := by
    rcases h with rfl | rfl <;> rfl
  refine ⟨htr, ?_⟩
  rw [htr]
  rfl

theorem mode1_fails_before_open_witness :
    mainTrace 3 1 12500 "obs" [] zeroBuf =
      [Event.logged "dadafilterbank version",
       Event.logged ("Science case = " ++ toString (3 : Int)),
       Event.logged ("Filename prefix = " ++ "obs"),
       Event.logged "Error: modes IQUV+TAB / IQUV+IAB not supported",
       Event.exited false] ∧
    (mainTrace 3 1 12500 "obs" [] zeroBuf).filter isOpenedEv = [] :=
  mode1_fails_before_open 3 12500 "obs" [] zeroBuf (Or.inl rfl)

/-- C9: a metadata block that omits SCIENCE_CASE, SCIENCE_MODE and
PADDED_SIZE does not make the program fail: the defaults 3 / 2 / 12500
apply, the run behaves exactly as if those values had been supplied, and
it completes with success. -/
theorem defaults_applied_when_missing (pfx : String) (pages : List Buf)
    (buf0 : Buf) :
    readHeader (fun _ => none) = ⟨3, 2, 12500⟩ ∧
    runWithHeader (fun _ => none) pfx pages buf0 =
      runWithHeader
        (fun k => if k = "SCIENCE_CASE" then some 3
                  else if k = "SCIENCE_MODE" then some 2
                  else if k = "PADDED_SIZE" then some 12500 else none)
        pfx pages buf0 ∧
    (runWithHeader (fun _ => none) pfx pages buf0).getLast? =
      some (Event.exited true) := by
  refine ⟨rfl, rfl, ?_⟩
  show (Event.logged "dadafilterbank version" ::
    Event.logged ("Science case = " ++ toString (3 : Int)) ::
    Event.logged ("Filename prefix = " ++ pfx) ::
    Event.logged "Science mode: I + IAB" ::
    (openFilesEvents pfx 1 ++
      ((processPages nchannels 12500 12500 1 pages buf0).1 ++
        [Event.logged "End of data received",
         Event.logged ("Read " ++ toString pages.length ++ " pages"),
         Event.exited true]))).getLast? = some (Event.exited true)
  rw [List.getLast?_cons, List.getLast?_cons, List.getLast?_cons,
    List.getLast?_cons, List.getLast?_append, List.getLast?_append]
  rfl

end Dadafilterbank
